import Mathlib

/-!
Verification of the data-migration script `scripts/migrate_db_data.py`
(MIG_SDK_EXPORT repository) against its natural-language specification.

The script copies rows for a fixed list of tables from a source schema
(`arbitrage`) to a target schema (`mig_topology`), reconciling column
differences via per-table override rules, detecting a primary key to
choose an upsert statement shape, and streaming rows in batches of 1000,
each committed in its own transaction.  This file shallowly embeds the
pure decision logic of that script: the column reconciler, the primary
key lookup and conflict-strategy choice, the batch transfer loop, the
per-table result record, and the orchestrator's aggregation into the
final migration log.
-/

namespace MigrateDb

/-- `SOURCE_SCHEMA` constant of the script. -/
def SOURCE_SCHEMA : String := "arbitrage"

/-- `TARGET_SCHEMA` constant of the script. -/
def TARGET_SCHEMA : String := "mig_topology"

/-- The `TABLES_TO_MIGRATE` list of the script, in its configured order. -/
def TABLES_TO_MIGRATE : List String :=
  ["tokens", "pools", "dex_state", "pool_state_snapshots", "token_relations",
   "audit_log", "graph_weights", "pool_statistics", "dex_statistics",
   "configurations", "event_index"]

/-- A per-table column override rule, mirroring one entry of the script's
`COLUMN_MAPPING` dictionary.  `excludeCols` embeds the optional `exclude`
key and `includeCols` the optional `include` key (`include` is a Lean
keyword, hence the suffixed field names). -/
structure ColumnMapping where
  excludeCols : Option (List String)
  includeCols : Option (List String)
deriving DecidableEq

/-- The script's `COLUMN_MAPPING` table: only `pool_statistics` has a rule. -/
def COLUMN_MAPPING (table : String) : Option ColumnMapping :=
  if table = "pool_statistics" then
    some ⟨some ["avg_profit_usd", "profit_sample_count", "last_profit_usd"],
          some ["pool_address", "tvl_usd", "volatility_bps",
                "volatility_sample_count", "updated_at"]⟩
  else none

/-- Lines 141-146 of `migrate_table`: apply the override rule to the source
column list.  The script applies the `exclude` filter first and the
`include` filter second, each only when the corresponding key is present. -/
def applyColumnMapping (m : Option ColumnMapping) (source_columns : List String) :
    List String :=
  match m with
  | none => source_columns
  | some mapping =>
    let afterExclude :=
      match mapping.excludeCols with
      | some excl => source_columns.filter (fun c => !excl.contains c)
      | none => source_columns
    match mapping.includeCols with
    | some incl => afterExclude.filter (fun c => incl.contains c)
    | none => afterExclude

/-- Line 149 of `migrate_table`: the reconciled (common) column list is the
override-adjusted source list restricted to names present in the target
list, preserving source order. -/
def reconcile (m : Option ColumnMapping) (source_columns target_columns : List String) :
    List String :=
  (applyColumnMapping m source_columns).filter (fun c => target_columns.contains c)

/-- Modelled from the spec: the reconciliation algorithm exactly as section 4.2
words it — restrict to the include list first, then remove the exclude list,
then intersect with the target columns, preserving source order.  Written to
compare with `reconcile`, which is translated from the code (the code applies
exclude before include). -/
def reconcileSpecOrder (m : Option ColumnMapping) (source_columns target_columns : List String) :
    List String :=
  match m with
  | none => source_columns.filter (fun c => target_columns.contains c)
  | some mapping =>
    let afterInclude :=
      match mapping.includeCols with
      | some incl => source_columns.filter (fun c => incl.contains c)
      | none => source_columns
    let afterExclude :=
      match mapping.excludeCols with
      | some excl => afterInclude.filter (fun c => !excl.contains c)
      | none => afterInclude
    afterExclude.filter (fun c => target_columns.contains c)

/-- Lines 203-206 of `migrate_table`: the primary-key catalog query yields one
row per primary-key column; the script calls `fetchone()`, taking the first
row if any (`pk_result[0] if pk_result else None`).  We embed the query
result as the list `pkColumns` of primary-key column names and `fetchone`
as `head?`. -/
def pkLookup (pkColumns : List String) : Option String := pkColumns.head?

/-- The shape of the generated insert statement: either an upsert keyed on a
single column that overwrites the given non-key columns on conflict
(lines 209-215), or a plain insert that does nothing on any conflict
(lines 217-222). -/
inductive InsertStrategy where
  | upsert (pk : String) (updateCols : List String)
  | skipDuplicates
deriving DecidableEq

/-- Lines 208-222 of `migrate_table`: if `pk_column` is truthy (a non-empty
string in Python) and is among the common columns, generate the
on-conflict-update statement whose SET clause lists every common column
other than the key; otherwise generate the on-conflict-do-nothing
statement. -/
def chooseStrategy (pk_column : Option String) (common_columns : List String) :
    InsertStrategy :=
  match pk_column with
  | some pk =>
    if pk != "" && common_columns.contains pk then
      InsertStrategy.upsert pk (common_columns.filter (fun c => c != pk))
    else
      InsertStrategy.skipDuplicates
  | none => InsertStrategy.skipDuplicates

/-- A source row, as the tuple of values aligned with the common columns. -/
abbrev Row := List String

/-- The script's `batch_size = 1000` (line 228). -/
def batch_size : Nat := 1000

/-- State of the transfer loop of lines 227-252: the batch being
accumulated, the batches handed to `executemany` so far (in order), the
batches whose transaction committed, the `rows_migrated` counter (increased
by the batch length only after a successful commit, lines 243 and 252), and
the message of the exception raised by a batch write, if any. -/
structure LoopState (α : Type) where
  batch : List α
  attempted : List (List α)
  committed : List (List α)
  rowsMigrated : Nat
  errorMsg : Option String
deriving DecidableEq

/-- Lines 240-243 (and 249-252) of `migrate_table`: hand one batch to the
target cursor and commit.  A write that raises — modelled by
`failAt i = some msg` for the i-th attempted batch — leaves the transaction
uncommitted (it is rolled back by the handler at line 264) and contributes
nothing to `rows_migrated`. -/
def writeBatch (failAt : Nat → Option String) (s : LoopState α) (batch : List α) :
    LoopState α :=
  match failAt s.attempted.length with
  | some msg => ⟨[], s.attempted ++ [batch], s.committed, s.rowsMigrated, some msg⟩
  | none =>
    ⟨[], s.attempted ++ [batch], s.committed ++ [batch],
      s.rowsMigrated + batch.length, none⟩

/-- Lines 235-245 of `migrate_table`, one iteration of the row loop: append
the row's value tuple to the batch and flush the batch when it has reached
`B` rows.  An exception raised by an earlier batch escapes the loop, so
once `errorMsg` is set no further row is processed. -/
def stepRow (B : Nat) (failAt : Nat → Option String) (s : LoopState α) (row : α) :
    LoopState α :=
  if s.errorMsg.isSome then s
  else
    let batch := s.batch ++ [row]
    if B ≤ batch.length then writeBatch failAt s batch
    else ⟨batch, s.attempted, s.committed, s.rowsMigrated, none⟩

/-- The row loop of lines 235-252 starting from an arbitrary loop state:
fold the rows through `stepRow`, then flush the final partial batch
(lines 248-252) when the loop finished without an exception and a partial
batch remains. -/
def loopFrom (B : Nat) (failAt : Nat → Option String) (s0 : LoopState α)
    (rows : List α) : LoopState α :=
  let s := rows.foldl (stepRow B failAt) s0
  if s.errorMsg.isSome then s
  else if s.batch.isEmpty then s
  else writeBatch failAt s s.batch

/-- Lines 227-252 of `migrate_table`: stream the source rows through the
batch loop starting from the initial state (`rows_migrated = 0`,
`batch = []`, line 227), then flush the final partial batch. -/
def transferLoop (B : Nat) (failAt : Nat → Option String) (rows : List α) :
    LoopState α :=
  loopFrom B failAt ⟨[], [], [], 0, none⟩ rows

/-- The consecutive chunks of `B` rows that the loop of lines 234-252 hands
to `executemany`: full chunks of exactly `B` rows, then a shorter final
chunk.  The first argument is recursion fuel, always called with the length
of the list, which bounds the number of chunks. -/
def chunkFuel : Nat → Nat → List α → List (List α)
  | _, _, [] => []
  | 0, _, r :: rs => [r :: rs]
  | fuel + 1, B, r :: rs =>
    (r :: rs).take B :: chunkFuel fuel B ((r :: rs).drop B)

/-- The batches the transfer loop forms out of the row stream, as chunks of
`B` rows with a shorter final chunk.  `transferLoop_eq` proves that the
row-level loop attempts exactly these chunks in order. -/
def chunkList (B : Nat) (rows : List α) : List (List α) :=
  chunkFuel rows.length B rows

/-- Outcome of attempting a list of batches in order: which batches were
attempted, which committed, the resulting `rows_migrated`, and the error
message of the batch that raised, if any. -/
structure BatchRun (α : Type) where
  attempted : List (List α)
  committed : List (List α)
  rowsMigrated : Nat
  errorMsg : Option String
deriving DecidableEq

/-- Chunk-level description of the loop of lines 239-252: attempt each batch
in order; a batch whose write raises (`failAt i = some msg` for the i-th
attempted batch) is attempted but not committed, contributes nothing to
`rows_migrated`, and no later batch is attempted, since the exception
escapes to the handler at line 263.  `transferLoop_eq` proves this equal to
the row-level `transferLoop`. -/
def commitBatches (failAt : Nat → Option String) :
    List (List α) → BatchRun α
  | [] => ⟨[], [], 0, none⟩
  | b :: bs =>
    match failAt 0 with
    | some msg => ⟨[b], [], 0, some msg⟩
    | none =>
      let r := commitBatches (fun j => failAt (j + 1)) bs
      ⟨b :: r.attempted, b :: r.committed, b.length + r.rowsMigrated, r.errorMsg⟩

/-- Status field of a per-table result: `success`, `skipped` or `error`. -/
inductive TableStatus where
  | success
  | skipped
  | error
deriving DecidableEq

/-- The per-table result dictionary returned by `migrate_table`: table name,
status, optional skip reason, rows migrated, optional error message, and
the number of columns migrated (present only on success). -/
structure TableResult where
  table : String
  status : TableStatus
  reason : Option String
  rows_migrated : Nat
  errorMsg : Option String
  columns_migrated : Option Nat
deriving DecidableEq

/-- Everything `migrate_table` consumes for one table: the table name, its
override rule, the two introspected column lists, the two row counts, the
operator's response to the overwrite prompt (consulted only when the target
is non-empty), the primary-key catalog rows, the stream of source rows, and
which batch write (if any) raises with which message. -/
structure TableInput where
  table : String
  mapping : Option ColumnMapping
  source_columns : List String
  target_columns : List String
  source_count : Nat
  target_count : Nat
  response : String
  pkColumns : List String
  rows : List Row
  failAt : Nat → Option String

/-- Python's `str.lower()` (line 179), modelled as lowering each character
of the string. -/
def lowercase (s : String) : String := ⟨s.data.map Char.toLower⟩

/-- Lines 230-271 of `migrate_table`: stream the rows through the batch
loop and build the success result (lines 256-261) or, when a batch write
raised, the error result carrying the rows committed before the failure
(lines 263-271). -/
def transferPhase (inp : TableInput) (common_columns : List String) : TableResult :=
  let s := transferLoop batch_size inp.failAt inp.rows
  match s.errorMsg with
  | some msg => ⟨inp.table, TableStatus.error, none, s.rowsMigrated, some msg, none⟩
  | none =>
    ⟨inp.table, TableStatus.success, none, s.rowsMigrated, none,
      some common_columns.length⟩

/-- Lines 126-271, `migrate_table`: reconcile the columns (skip when no
common columns, line 151), skip when the source is empty (line 168), prompt
when the target is non-empty and skip unless the lowercased response is
exactly "s" (lines 177-185), and otherwise transfer the rows in batches. -/
def migrate_table (inp : TableInput) : TableResult :=
  let common_columns := reconcile inp.mapping inp.source_columns inp.target_columns
  if common_columns.isEmpty then
    ⟨inp.table, TableStatus.skipped, some "No hay columnas comunes", 0, none, none⟩
  else if inp.source_count = 0 then
    ⟨inp.table, TableStatus.skipped, some "Tabla vacía en origen", 0, none, none⟩
  else if 0 < inp.target_count then
    if lowercase inp.response ≠ "s" then
      ⟨inp.table, TableStatus.skipped, some "Usuario canceló", 0, none, none⟩
    else transferPhase inp common_columns
  else transferPhase inp common_columns

/-- Lines 370-379 of `main`: the orchestrator migrates each enumerated table
in order, appending every result; no result short-circuits the loop. -/
def runTables (inputs : List TableInput) : List TableResult :=
  inputs.map migrate_table

/-- Aggregate counters of the summary loop in `main` (lines 386-402). -/
structure MigrationSummary where
  success_count : Nat
  error_count : Nat
  skipped_count : Nat
  total_rows : Nat
deriving DecidableEq

/-- One iteration of the summary loop of lines 391-402 of `main`:
`total_rows` is increased by `rows_migrated` only in the `success` branch
(line 395); error and skipped results leave it unchanged. -/
def summaryStep (acc : MigrationSummary) (r : TableResult) : MigrationSummary :=
  match r.status with
  | TableStatus.success =>
    ⟨acc.success_count + 1, acc.error_count, acc.skipped_count,
      acc.total_rows + r.rows_migrated⟩
  | TableStatus.error =>
    ⟨acc.success_count, acc.error_count + 1, acc.skipped_count, acc.total_rows⟩
  | TableStatus.skipped =>
    ⟨acc.success_count, acc.error_count, acc.skipped_count + 1, acc.total_rows⟩

/-- Lines 386-402 of `main`: fold over the results accumulating the success,
error and skipped counters and the total row count. -/
def summarize (results : List TableResult) : MigrationSummary :=
  results.foldl summaryStep ⟨0, 0, 0, 0⟩

/-- The JSON artifact written at lines 408-416 of `main`: timestamp, the two
schema identifiers, the ordered per-table results, and the total row
count. -/
structure MigrationLog where
  timestamp : String
  source_schema : String
  target_schema : String
  results : List TableResult
  total_rows_migrated : Nat
deriving DecidableEq

/-- Lines 408-416 of `main`: assemble the persisted migration log from the
run timestamp and the ordered result list; the recorded total is the
`total_rows` accumulated by the summary loop. -/
def buildLog (timestamp : String) (results : List TableResult) : MigrationLog :=
  ⟨timestamp, SOURCE_SCHEMA, TARGET_SCHEMA, results, (summarize results).total_rows⟩

/-- Semantics of the on-conflict-do-nothing insert generated at
lines 218-222: inserting a row that conflicts (under the target's unique
constraints, abstracted as the predicate `conflicts`) with an existing row
leaves the table unchanged; otherwise the row is appended. -/
def insertSkip (conflicts : Row → Row → Bool) (t : List Row) (r : Row) : List Row :=
  if t.any (fun x => conflicts x r) then t else t ++ [r]

/-- Inserting a whole stream of rows with the on-conflict-do-nothing
statement, in order. -/
def insertSkipAll (conflicts : Row → Row → Bool) (t : List Row) (rows : List Row) :
    List Row :=
  rows.foldl (insertSkip conflicts) t

/-- Glue an outer prefix of already attempted and committed batches onto the
outcome of a batch run; used only to state `loopFrom_eq`. -/
def appendRun (att com : List (List α)) (n : Nat) (r : BatchRun α) : LoopState α :=
  ⟨[], att ++ r.attempted, com ++ r.committed, n + r.rowsMigrated, r.errorMsg⟩

/-- The total row count that the summary loop actually accumulates: the sum
of `rows_migrated` over the results whose status is `success`. -/
def successTotal (results : List TableResult) : Nat :=
  (results.map (fun r =>
    match r.status with
    | TableStatus.success => r.rows_migrated
    | TableStatus.error => 0
    | TableStatus.skipped => 0)).sum

/-- Replace only the operator's prompt response in a table input; used to
state that a result does not depend on the response. -/
def withResponse (inp : TableInput) (response : String) : TableInput :=
  ⟨inp.table, inp.mapping, inp.source_columns, inp.target_columns, inp.source_count,
    inp.target_count, response, inp.pkColumns, inp.rows, inp.failAt⟩

/-- Replace the run-dependent inputs of a table (row counts, response, row
stream, write outcomes), keeping the table identity and the introspected
column lists; used to state that a result does not depend on them. -/
def withRunData (inp : TableInput) (source_count target_count : Nat)
    (response : String) (rows : List Row) (failAt : Nat → Option String) :
    TableInput :=
  ⟨inp.table, inp.mapping, inp.source_columns, inp.target_columns, source_count,
    target_count, response, inp.pkColumns, rows, failAt⟩

/-- A concrete run input whose second batch write raises: 1001 identical
one-column rows, so batch 1 (1000 rows) commits and batch 2 (1 row)
fails. -/
def c2ErrorInput : TableInput :=
  ⟨"tokens", none, ["a"], ["a"], 1001, 0, "s", ["a"],
    List.replicate 1001 ["v"], fun i => if i = 1 then some "boom" else none⟩

/-- A concrete one-row input whose only batch write raises. -/
def c3FailInput : TableInput :=
  ⟨"pools", none, ["a"], ["a"], 1, 0, "s", [], [["v"]], fun _ => some "boom"⟩

/-- A concrete input with an empty source table and a non-empty target. -/
def c7EmptySourceInput : TableInput :=
  ⟨"dex_state", none, ["a"], ["a"], 0, 5, "n", [], [], fun _ => none⟩

/-- A concrete input with a non-empty source, a non-empty target, and a
declining operator response. -/
def c7DeclineInput : TableInput :=
  ⟨"audit_log", none, ["a"], ["a"], 3, 5, "n", [], [["v"]], fun _ => none⟩

/-- A concrete input whose source and target share no column. -/
def c9NoCommonInput : TableInput :=
  ⟨"graph_weights", none, ["a"], ["b"], 5, 0, "s", [], [["v"]], fun _ => none⟩

/-- A concrete two-row input that migrates without failure; its two rows are
identical, so a unique constraint on the target would drop the second. -/
def c10DuplicateInput : TableInput :=
  ⟨"configurations", none, ["a"], ["a"], 2, 0, "s", [], [["v"], ["v"]],
    fun _ => none⟩

/-! ### Lemmas about the chunk structure of the batch loop -/

theorem chunkFuel_nil (f B : Nat) : chunkFuel f B ([] : List α) = [] := by
  cases f <;> rfl

theorem chunkFuel_congr (B : Nat) (hB : 0 < B) :
    ∀ (f f' : Nat) (rows : List α), rows.length ≤ f → rows.length ≤ f' →
      chunkFuel f B rows = chunkFuel f' B rows := by
  intro f
  induction f with
  | zero =>
    intro f' rows h _
    have : rows = [] := List.eq_nil_of_length_eq_zero (Nat.le_zero.mp h)
    subst this
    rw [chunkFuel_nil, chunkFuel_nil]
  | succ f ihf =>
    intro f' rows h h'
    cases rows with
    | nil => rw [chunkFuel_nil, chunkFuel_nil]
    | cons r rs =>
      simp only [List.length_cons] at h h'
      cases f' with
      | zero => omega
      | succ f'' =>
        show (r :: rs).take B :: chunkFuel f B ((r :: rs).drop B) =
          (r :: rs).take B :: chunkFuel f'' B ((r :: rs).drop B)
        congr 1
        apply ihf
        · simp only [List.length_drop, List.length_cons]
          omega
        · simp only [List.length_drop, List.length_cons]
          omega

theorem chunkList_nil (B : Nat) : chunkList B ([] : List α) = [] := rfl

theorem chunkList_cons (B : Nat) (hB : 0 < B) (rows : List α) (h : rows ≠ []) :
    chunkList B rows = rows.take B :: chunkList B (rows.drop B) := by
  cases rows with
  | nil => exact absurd rfl h
  | cons r rs =>
    show (r :: rs).take B :: chunkFuel rs.length B ((r :: rs).drop B) =
      (r :: rs).take B :: chunkFuel ((r :: rs).drop B).length B ((r :: rs).drop B)
    congr 1
    apply chunkFuel_congr B hB
    · simp only [List.length_drop, List.length_cons]
      omega
    · exact le_refl _

theorem chunkList_flatten (B : Nat) (hB : 0 < B) (rows : List α) :
    (chunkList B rows).flatten = rows := by
  generalize hn : rows.length = n
  induction n using Nat.strong_induction_on generalizing rows with
  | _ n ih =>
    cases rows with
    | nil => rw [chunkList_nil]; rfl
    | cons r rs =>
      simp only [List.length_cons] at hn
      rw [chunkList_cons B hB _ (by simp), List.flatten_cons,
        ih ((r :: rs).drop B).length (by simp [List.length_drop]; omega) _ rfl,
        List.take_append_drop]

theorem chunkList_length (B : Nat) (hB : 0 < B) (rows : List α) :
    (chunkList B rows).length = (rows.length + B - 1) / B := by
  generalize hn : rows.length = n
  induction n using Nat.strong_induction_on generalizing rows with
  | _ n ih =>
    cases rows with
    | nil =>
      simp only [List.length_nil] at hn
      subst hn
      rw [chunkList_nil]
      simp only [List.length_nil]
      rw [Nat.div_eq_of_lt (by omega)]
    | cons r rs =>
      simp only [List.length_cons] at hn
      subst hn
      rw [chunkList_cons B hB _ (by simp), List.length_cons,
        ih ((r :: rs).drop B).length (by simp [List.length_drop]; omega) _ rfl]
      simp only [List.length_drop, List.length_cons]
      rcases le_or_lt (rs.length + 1) B with hle | hlt
      · have h1 : rs.length + 1 - B = 0 := by omega
        rw [h1]
        rw [Nat.div_eq_of_lt (by omega),
          show rs.length + 1 + B - 1 = rs.length + B by omega,
          Nat.add_div_right _ hB, Nat.div_eq_of_lt (by omega)]
      · rw [show rs.length + 1 - B + B - 1 = rs.length by omega,
          show rs.length + 1 + B - 1 = rs.length + B by omega,
          Nat.add_div_right _ hB]

theorem chunkList_get? (B : Nat) (hB : 0 < B) (rows : List α) :
    ∀ (i : Nat), i < (chunkList B rows).length →
      (chunkList B rows).get? i = some ((rows.drop (i * B)).take B) := by
  generalize hn : rows.length = n
  induction n using Nat.strong_induction_on generalizing rows with
  | _ n ih =>
    intro i hi
    cases rows with
    | nil => rw [chunkList_nil] at hi; simp at hi
    | cons r rs =>
      simp only [List.length_cons] at hn
      rw [chunkList_cons B hB _ (by simp)] at hi ⊢
      cases i with
      | zero => simp
      | succ i =>
        simp only [List.length_cons, Nat.succ_lt_succ_iff] at hi
        rw [List.get?_cons_succ,
          ih ((r :: rs).drop B).length (by simp [List.length_drop]; omega) _ rfl i hi,
          List.drop_drop, show B + i * B = (i + 1) * B by ring]

theorem chunkList_mem_length (B : Nat) (hB : 0 < B) (rows : List α) :
    ∀ c ∈ chunkList B rows, c.length ≤ B ∧ c ≠ [] := by
  generalize hn : rows.length = n
  induction n using Nat.strong_induction_on generalizing rows with
  | _ n ih =>
    intro c hc
    cases rows with
    | nil => rw [chunkList_nil] at hc; simp at hc
    | cons r rs =>
      simp only [List.length_cons] at hn
      rw [chunkList_cons B hB _ (by simp)] at hc
      rcases List.mem_cons.mp hc with h | h
      · subst h
        constructor
        · simp only [List.length_take, List.length_cons]
          omega
        · simp only [ne_eq, List.take_eq_nil_iff]
          push_neg
          exact ⟨by omega, by simp⟩
      · exact ih ((r :: rs).drop B).length (by simp [List.length_drop]; omega) _ rfl c h

/-! ### The row-level transfer loop equals the chunk-level description -/

theorem foldl_stepRow_error (B : Nat) (failAt : Nat → Option String) :
    ∀ (l : List α) (s : LoopState α), s.errorMsg.isSome →
      l.foldl (stepRow B failAt) s = s := by
  intro l
  induction l with
  | nil => intro s _; rfl
  | cons r rest ih =>
    intro s h
    rw [List.foldl_cons, show stepRow B failAt s r = s from by simp [stepRow, h]]
    exact ih s h

theorem stepRow_noflush (B : Nat) (failAt : Nat → Option String) (r : α)
    (b : List α) (att com : List (List α)) (n : Nat) (h : ¬ B ≤ b.length + 1) :
    stepRow B failAt ⟨b, att, com, n, none⟩ r = ⟨b ++ [r], att, com, n, none⟩ := by
  simp [stepRow, h]

theorem stepRow_flush (B : Nat) (failAt : Nat → Option String) (r : α)
    (b : List α) (att com : List (List α)) (n : Nat) (h : B ≤ b.length + 1) :
    stepRow B failAt ⟨b, att, com, n, none⟩ r =
      writeBatch failAt ⟨b, att, com, n, none⟩ (b ++ [r]) := by
  simp [stepRow, h]

theorem foldl_accumulate (B : Nat) (failAt : Nat → Option String) :
    ∀ (chunk b : List α) (att com : List (List α)) (n : Nat),
      b.length + chunk.length < B →
      chunk.foldl (stepRow B failAt) ⟨b, att, com, n, none⟩ =
        ⟨b ++ chunk, att, com, n, none⟩ := by
  intro chunk
  induction chunk with
  | nil =>
    intro b att com n _
    simp
  | cons r rest ih =>
    intro b att com n hlen
    simp only [List.length_cons] at hlen
    rw [List.foldl_cons, stepRow_noflush B failAt r b att com n (by omega)]
    have hrec := ih (b ++ [r]) att com n
      (by simp only [List.length_append, List.length_cons, List.length_nil]; omega)
    rw [hrec, List.append_assoc]
    rfl

theorem foldl_fillBatch (B : Nat) (failAt : Nat → Option String) :
    ∀ (chunk b : List α) (att com : List (List α)) (n : Nat), chunk ≠ [] →
      b.length + chunk.length = B →
      chunk.foldl (stepRow B failAt) ⟨b, att, com, n, none⟩ =
        writeBatch failAt ⟨b, att, com, n, none⟩ (b ++ chunk) := by
  intro chunk
  induction chunk with
  | nil =>
    intro b att com n hne _
    exact absurd rfl hne
  | cons r rest ih =>
    intro b att com n _ hlen
    simp only [List.length_cons] at hlen
    cases rest with
    | nil =>
      simp only [List.length_nil] at hlen
      rw [List.foldl_cons, List.foldl_nil,
        stepRow_flush B failAt r b att com n (by omega)]
    | cons r2 rest2 =>
      simp only [List.length_cons] at hlen
      rw [List.foldl_cons, stepRow_noflush B failAt r b att com n (by omega)]
      have hrec := ih (b ++ [r]) att com n (by simp)
        (by simp only [List.length_append, List.length_cons, List.length_nil]; omega)
      rw [hrec, List.append_assoc]
      rfl

theorem commitBatches_nil (f : Nat → Option String) :
    commitBatches f ([] : List (List α)) = ⟨[], [], 0, none⟩ := rfl

theorem commitBatches_cons_fail (f : Nat → Option String) (b : List α)
    (bs : List (List α)) (msg : String) (hf : f 0 = some msg) :
    commitBatches f (b :: bs) = ⟨[b], [], 0, some msg⟩ := by
  simp [commitBatches, hf]

theorem commitBatches_cons_ok (f g : Nat → Option String) (b : List α)
    (bs : List (List α)) (hf : f 0 = none) (hg : ∀ j, g j = f (j + 1)) :
    commitBatches f (b :: bs) =
      ⟨b :: (commitBatches g bs).attempted, b :: (commitBatches g bs).committed,
        b.length + (commitBatches g bs).rowsMigrated,
        (commitBatches g bs).errorMsg⟩ := by
  have hgf : g = fun j => f (j + 1) := funext hg
  subst hgf
  simp [commitBatches, hf]

theorem loopFrom_eq (B : Nat) (hB : 0 < B) (failAt : Nat → Option String)
    (rows : List α) :
    ∀ (att com : List (List α)) (n : Nat),
      loopFrom B failAt ⟨[], att, com, n, none⟩ rows =
        appendRun att com n
          (commitBatches (fun j => failAt (att.length + j)) (chunkList B rows)) := by
  generalize hlen : rows.length = L
  induction L using Nat.strong_induction_on generalizing rows with
  | _ L ih =>
    intro att com n
    cases rows with
    | nil =>
      rw [chunkList_nil, commitBatches_nil]
      simp [loopFrom, appendRun]
    | cons r0 rs =>
      simp only [List.length_cons] at hlen
      rcases le_or_lt B (rs.length + 1) with hge | hlt
      · -- the first chunk is full: the loop flushes it mid-stream
        have htake_len : ((r0 :: rs).take B).length = B := by
          simp only [List.length_take, List.length_cons]
          omega
        have htake_ne : (r0 :: rs).take B ≠ [] := by
          simp only [ne_eq, List.take_eq_nil_iff]
          push_neg
          exact ⟨by omega, by simp⟩
        have hfold : (r0 :: rs).foldl (stepRow B failAt) ⟨[], att, com, n, none⟩ =
            ((r0 :: rs).drop B).foldl (stepRow B failAt)
              (writeBatch failAt ⟨[], att, com, n, none⟩ ((r0 :: rs).take B)) := by
          conv_lhs => rw [← List.take_append_drop B (r0 :: rs)]
          rw [List.foldl_append,
            foldl_fillBatch B failAt ((r0 :: rs).take B) [] att com n htake_ne
              (by simp [htake_len])]
          simp
        rw [chunkList_cons B hB _ (by simp)]
        cases hf : failAt att.length with
        | some msg =>
          have hf0 : (fun j => failAt (att.length + j)) 0 = some msg := by
            simpa using hf
          rw [commitBatches_cons_fail _ _ _ _ hf0]
          have hwb : writeBatch failAt ⟨[], att, com, n, none⟩ ((r0 :: rs).take B) =
              ⟨[], att ++ [(r0 :: rs).take B], com, n, some msg⟩ := by
            simp [writeBatch, hf]
          simp only [loopFrom]
          rw [hfold, hwb, foldl_stepRow_error B failAt _ _ (by simp)]
          simp [appendRun]
        | none =>
          have hf0 : (fun j => failAt (att.length + j)) 0 = none := by
            simpa using hf
          have hg : ∀ j, (fun j => failAt ((att ++ [(r0 :: rs).take B]).length + j)) j
              = (fun j => failAt (att.length + j)) (j + 1) := by
            intro j
            show failAt ((att ++ [(r0 :: rs).take B]).length + j) =
              failAt (att.length + (j + 1))
            congr 1
            simp only [List.length_append, List.length_cons, List.length_nil]
            omega
          rw [commitBatches_cons_ok (fun j => failAt (att.length + j))
            (fun j => failAt ((att ++ [(r0 :: rs).take B]).length + j)) _ _ hf0 hg]
          have hwb : writeBatch failAt ⟨[], att, com, n, none⟩ ((r0 :: rs).take B) =
              ⟨[], att ++ [(r0 :: rs).take B], com ++ [(r0 :: rs).take B],
                n + ((r0 :: rs).take B).length, none⟩ := by
            simp [writeBatch, hf]
          have hstep : loopFrom B failAt ⟨[], att, com, n, none⟩ (r0 :: rs)
              = loopFrom B failAt
                  ⟨[], att ++ [(r0 :: rs).take B], com ++ [(r0 :: rs).take B],
                    n + ((r0 :: rs).take B).length, none⟩ ((r0 :: rs).drop B) := by
            simp only [loopFrom]
            rw [hfold, hwb]
          have hrec := ih ((r0 :: rs).drop B).length
            (by simp only [List.length_drop, List.length_cons]; omega)
            ((r0 :: rs).drop B) rfl (att ++ [(r0 :: rs).take B])
            (com ++ [(r0 :: rs).take B]) (n + ((r0 :: rs).take B).length)
          rw [hstep, hrec]
          simp [appendRun, List.append_assoc, Nat.add_assoc]
      · -- the whole stream is shorter than one batch: only the final flush writes
        have htake_all : (r0 :: rs).take B = r0 :: rs :=
          List.take_of_length_le (by simp only [List.length_cons]; omega)
        have hdrop_nil : (r0 :: rs).drop B = [] :=
          List.drop_eq_nil_of_le (by simp only [List.length_cons]; omega)
        have hfold : (r0 :: rs).foldl (stepRow B failAt) ⟨[], att, com, n, none⟩ =
            ⟨r0 :: rs, att, com, n, none⟩ := by
          have h := foldl_accumulate B failAt (r0 :: rs) [] att com n
            (by simp only [List.length_nil, List.length_cons]; omega)
          simpa using h
        rw [chunkList_cons B hB _ (by simp), htake_all, hdrop_nil, chunkList_nil]
        cases hf : failAt att.length with
        | some msg =>
          have hf0 : (fun j => failAt (att.length + j)) 0 = some msg := by
            simpa using hf
          rw [commitBatches_cons_fail _ _ _ _ hf0]
          simp only [loopFrom]
          rw [hfold]
          simp [writeBatch, hf, appendRun]
        | none =>
          have hf0 : (fun j => failAt (att.length + j)) 0 = none := by
            simpa using hf
          rw [commitBatches_cons_ok (fun j => failAt (att.length + j))
            (fun j => failAt (att.length + (j + 1))) _ _ hf0 (fun j => rfl),
            commitBatches_nil]
          simp only [loopFrom]
          rw [hfold]
          simp [writeBatch, hf, appendRun]

/-- The transfer loop of lines 227-252 attempts exactly the consecutive
`B`-row chunks of the source stream, in order, committing each until the
first failing write. -/
theorem transferLoop_eq (B : Nat) (hB : 0 < B) (failAt : Nat → Option String)
    (rows : List α) :
    transferLoop B failAt rows =
      appendRun [] [] 0 (commitBatches failAt (chunkList B rows)) := by
  have h := loopFrom_eq B hB failAt rows [] [] 0
  simp only [transferLoop]
  rw [h]
  congr 1
  congr 1
  funext j
  simp

/-! ### Characterization of a batch run -/

theorem commitBatches_noFail :
    ∀ (bs : List (List α)) (f : Nat → Option String), (∀ j, f j = none) →
      commitBatches f bs = ⟨bs, bs, (bs.map List.length).sum, none⟩ := by
  intro bs
  induction bs with
  | nil =>
    intro f _
    simp [commitBatches_nil]
  | cons b rest ih =>
    intro f hf
    rw [commitBatches_cons_ok f (fun j => f (j + 1)) _ _ (hf 0) (fun j => rfl),
      ih _ (fun j => hf (j + 1))]
    simp

theorem commitBatches_of_errorMsg_none :
    ∀ (bs : List (List α)) (f : Nat → Option String),
      (commitBatches f bs).errorMsg = none →
      commitBatches f bs = ⟨bs, bs, (bs.map List.length).sum, none⟩ := by
  intro bs
  induction bs with
  | nil =>
    intro f _
    simp [commitBatches_nil]
  | cons b rest ih =>
    intro f he
    cases hf : f 0 with
    | some msg =>
      rw [commitBatches_cons_fail _ _ _ _ hf] at he
      simp at he
    | none =>
      rw [commitBatches_cons_ok f (fun j => f (j + 1)) _ _ hf (fun j => rfl)] at he ⊢
      simp only at he
      rw [ih _ he]
      simp

theorem commitBatches_fail :
    ∀ (bs : List (List α)) (f : Nat → Option String) (k : Nat) (msg : String),
      k < bs.length → f k = some msg → (∀ j, j < k → f j = none) →
      commitBatches f bs =
        ⟨bs.take (k + 1), bs.take k, ((bs.take k).map List.length).sum, some msg⟩ := by
  intro bs
  induction bs with
  | nil =>
    intro f k msg hk _ _
    simp at hk
  | cons b rest ih =>
    intro f k msg hk hfk hprev
    cases k with
    | zero =>
      rw [commitBatches_cons_fail _ _ _ _ hfk]
      simp
    | succ k =>
      have hf0 : f 0 = none := hprev 0 (Nat.succ_pos k)
      rw [commitBatches_cons_ok f (fun j => f (j + 1)) _ _ hf0 (fun j => rfl),
        ih (fun j => f (j + 1)) k msg (by simp only [List.length_cons] at hk; omega)
          hfk (fun j hj => hprev (j + 1) (by omega))]
      simp

/-! ### Branch lemmas for `migrate_table` and the summary loop -/

theorem migrate_table_noCommon (inp : TableInput)
    (h : reconcile inp.mapping inp.source_columns inp.target_columns = []) :
    migrate_table inp =
      ⟨inp.table, TableStatus.skipped, some "No hay columnas comunes", 0, none, none⟩ := by
  simp [migrate_table, h]

theorem migrate_table_sourceEmpty (inp : TableInput)
    (hcc : reconcile inp.mapping inp.source_columns inp.target_columns ≠ [])
    (hsrc : inp.source_count = 0) :
    migrate_table inp =
      ⟨inp.table, TableStatus.skipped, some "Tabla vacía en origen", 0, none, none⟩ := by
  simp [migrate_table, hcc, hsrc]

theorem migrate_table_declined (inp : TableInput)
    (hcc : reconcile inp.mapping inp.source_columns inp.target_columns ≠ [])
    (hsrc : inp.source_count ≠ 0) (htc : 0 < inp.target_count)
    (hresp : lowercase inp.response ≠ "s") :
    migrate_table inp =
      ⟨inp.table, TableStatus.skipped, some "Usuario canceló", 0, none, none⟩ := by
  simp [migrate_table, hcc, hsrc, htc, hresp]

theorem migrate_table_transfer (inp : TableInput)
    (hcc : reconcile inp.mapping inp.source_columns inp.target_columns ≠ [])
    (hsrc : inp.source_count ≠ 0)
    (hok : inp.target_count = 0 ∨ lowercase inp.response = "s") :
    migrate_table inp =
      transferPhase inp (reconcile inp.mapping inp.source_columns inp.target_columns) := by
  rcases hok with h | h
  · simp [migrate_table, hcc, hsrc, h]
  · by_cases htc : 0 < inp.target_count
    · simp [migrate_table, hcc, hsrc, htc, h]
    · simp [migrate_table, hcc, hsrc, htc, h]

theorem summarize_go_total :
    ∀ (results : List TableResult) (acc : MigrationSummary),
      (results.foldl summaryStep acc).total_rows = acc.total_rows + successTotal results := by
  intro results
  induction results with
  | nil =>
    intro acc
    simp [successTotal]
  | cons r rest ih =>
    intro acc
    rw [List.foldl_cons, ih]
    cases hs : r.status <;>
      simp [summaryStep, successTotal, hs, Nat.add_assoc]

theorem summarize_total (results : List TableResult) :
    (summarize results).total_rows = successTotal results := by
  rw [summarize, summarize_go_total]
  simp

theorem applyColumnMapping_mem (m : Option ColumnMapping) (source_columns : List String)
    (c : String) (hc : c ∈ applyColumnMapping m source_columns) :
    c ∈ source_columns := by
  cases m with
  | none => exact hc
  | some mapping =>
    cases he : mapping.excludeCols <;> cases hi : mapping.includeCols <;>
      simp only [applyColumnMapping, he, hi] at hc <;>
      repeat first
        | exact hc
        | exact List.mem_of_mem_filter hc
        | exact List.mem_of_mem_filter (List.mem_of_mem_filter hc)

theorem transferPhase_error (inp : TableInput) (cc : List String) (msg : String)
    (h : (transferLoop batch_size inp.failAt inp.rows).errorMsg = some msg) :
    transferPhase inp cc =
      ⟨inp.table, TableStatus.error, none,
        (transferLoop batch_size inp.failAt inp.rows).rowsMigrated, some msg, none⟩ := by
  simp only [transferPhase]
  rw [h]

theorem transferPhase_success (inp : TableInput) (cc : List String)
    (h : (transferLoop batch_size inp.failAt inp.rows).errorMsg = none) :
    transferPhase inp cc =
      ⟨inp.table, TableStatus.success, none,
        (transferLoop batch_size inp.failAt inp.rows).rowsMigrated, none,
        some cc.length⟩ := by
  simp only [transferPhase]
  rw [h]

/-! ### Claims -/

/-- C5: For every pair of ordered column lists and every override rule, the
reconciliation computed by the code (which applies the exclude filter before
the include filter, lines 141-149) equals the algorithm as the spec words it
(include restriction first, then exclude removal, then intersection with the
target columns, preserving source order). -/
theorem c5_reconcile_matches_spec_order (m : Option ColumnMapping)
    (source_columns target_columns : List String) :
    reconcile m source_columns target_columns =
      reconcileSpecOrder m source_columns target_columns := by
  cases m with
  | none => rfl
  | some mapping =>
    cases he : mapping.excludeCols with
    | none =>
      cases hi : mapping.includeCols <;>
        simp [reconcile, reconcileSpecOrder, applyColumnMapping, he, hi]
    | some excl =>
      cases hi : mapping.includeCols with
      | none => simp [reconcile, reconcileSpecOrder, applyColumnMapping, he, hi]
      | some incl =>
        simp only [reconcile, reconcileSpecOrder, applyColumnMapping, he, hi]
        exact congrArg (List.filter (fun c => target_columns.contains c))
          (List.filter_comm (p := fun c => incl.contains c)
            (fun c => !excl.contains c) source_columns)

/-- C8: The reconciled column list is a subset of both the source and the
target column lists, and a rule whose exclude list is the empty list and
that has no include list reconciles exactly as no rule at all. -/
theorem c8_reconcile_subset (m : Option ColumnMapping)
    (source_columns target_columns : List String) (c : String)
    (hc : c ∈ reconcile m source_columns target_columns) :
    (c ∈ source_columns ∧ c ∈ target_columns) ∧
      reconcile (some ⟨some [], none⟩) source_columns target_columns =
        reconcile none source_columns target_columns := by
  refine ⟨⟨?_, ?_⟩, ?_⟩
  · exact applyColumnMapping_mem m source_columns c (List.mem_of_mem_filter hc)
  · have h := List.of_mem_filter hc
    simpa using h
  · simp [reconcile, applyColumnMapping]

/-- Witness for C8 at a concrete input. -/
theorem c8_reconcile_subset_witness :
    ("a" ∈ ["a", "b"] ∧ "a" ∈ ["a", "c"]) ∧
      reconcile (some ⟨some [], none⟩) ["a", "b"] ["a", "c"] =
        reconcile none ["a", "b"] ["a", "c"] :=
  c8_reconcile_subset none ["a", "b"] ["a", "c"] "a" (by decide)

/-- C1 counterexample: for a composite primary key the catalog query yields
one row per key column and `fetchone()` takes the first of them, so the
lookup does not report "none" and the resolver does not fall back to the
duplicate-skip statement: with primary-key columns `["a", "b"]` and both
columns reconciled, the chosen statement is an on-conflict-update keyed on
the single column `"a"`. -/
theorem c1_counterexample :
    1 < (["a", "b"] : List String).length ∧
    pkLookup ["a", "b"] ≠ none ∧
    chooseStrategy (pkLookup ["a", "b"]) ["a", "b"] ≠ InsertStrategy.skipDuplicates := by
  decide

/-- C1 amended: for a table whose primary key is composite, the lookup
returns the first key column the catalog query yields rather than "none";
the resolver then emits the on-conflict-update statement keyed on that
single column whenever it is among the reconciled columns, and falls back
to the duplicate-skip statement only when it is not. -/
theorem c1_amended_composite_pk (c : String) (cs common_columns : List String) :
    pkLookup (c :: cs) = some c ∧
    (c ≠ "" → c ∈ common_columns →
      chooseStrategy (pkLookup (c :: cs)) common_columns =
        InsertStrategy.upsert c (common_columns.filter (fun x => x != c))) ∧
    (c ∉ common_columns →
      chooseStrategy (pkLookup (c :: cs)) common_columns =
        InsertStrategy.skipDuplicates) := by
  refine ⟨rfl, ?_, ?_⟩
  · intro hne hmem
    simp [pkLookup, chooseStrategy, hne, hmem]
  · intro hnm
    simp [pkLookup, chooseStrategy, hnm]

/-- Witness for the amended C1 at the composite key `["a", "b"]`. -/
theorem c1_amended_composite_pk_witness :
    pkLookup ["a", "b"] = some "a" ∧
    chooseStrategy (pkLookup ["a", "b"]) ["a", "b"] =
      InsertStrategy.upsert "a" (["a", "b"].filter (fun x => x != "a")) :=
  ⟨(c1_amended_composite_pk "a" ["b"] ["a", "b"]).1,
    (c1_amended_composite_pk "a" ["b"] ["a", "b"]).2.1 (by decide) (by decide)⟩

/-- C6: if the detected single-column primary key is a member of the
reconciled column list (and, being a catalog identifier, non-empty), the
generated statement is the insert that on primary-key conflict overwrites
every non-key reconciled column; otherwise — key not reconciled, or no key
detected — it is the insert that does nothing on any conflict. -/
theorem c6_strategy_choice (pk_column : Option String) (common_columns : List String) :
    (∀ p, pk_column = some p → p ≠ "" → p ∈ common_columns →
      chooseStrategy pk_column common_columns =
        InsertStrategy.upsert p (common_columns.filter (fun x => x != p))) ∧
    (∀ p, pk_column = some p → p ∉ common_columns →
      chooseStrategy pk_column common_columns = InsertStrategy.skipDuplicates) ∧
    (pk_column = none →
      chooseStrategy pk_column common_columns = InsertStrategy.skipDuplicates) := by
  refine ⟨?_, ?_, ?_⟩
  · intro p hp hne hmem
    subst hp
    simp [chooseStrategy, hne, hmem]
  · intro p hp hnm
    subst hp
    simp [chooseStrategy, hnm]
  · intro hp
    subst hp
    rfl

/-- Witness for C6 at concrete inputs covering all three branches. -/
theorem c6_strategy_choice_witness :
    chooseStrategy (some "id") ["id", "x"] =
      InsertStrategy.upsert "id" (["id", "x"].filter (fun x => x != "id")) ∧
    chooseStrategy (some "zz") ["id", "x"] = InsertStrategy.skipDuplicates ∧
    chooseStrategy none ["id", "x"] = InsertStrategy.skipDuplicates :=
  ⟨(c6_strategy_choice (some "id") ["id", "x"]).1 "id" rfl (by decide) (by decide),
    (c6_strategy_choice (some "zz") ["id", "x"]).2.1 "zz" rfl (by decide),
    (c6_strategy_choice none ["id", "x"]).2.2 rfl⟩

/-- C2 counterexample: a run over one table whose transfer fails on its
second batch, after committing 1000 rows in the first batch, is reported
with `rows_migrated = 1000` on the error result, yet the persisted log's
`total_rows_migrated` is 0 — rows committed before a failure are not
included in the total, contradicting the claim. -/
theorem c2_counterexample :
    migrate_table c2ErrorInput =
      ⟨"tokens", TableStatus.error, none, 1000, some "boom", none⟩ ∧
    (buildLog "2026-01-01T00:00:00" (runTables [c2ErrorInput])).total_rows_migrated
      = 0 := by
  have htake : List.take batch_size (List.replicate 1001 (["v"] : Row)) =
      List.replicate 1000 ["v"] := by
    rw [List.take_replicate, show batch_size ⊓ 1001 = 1000 from by decide]
  have hdrop : List.drop batch_size (List.replicate 1001 (["v"] : Row)) = [["v"]] := by
    rw [List.drop_replicate, show 1001 - batch_size = 1 from by decide,
      List.replicate_one]
  have hne : List.replicate 1001 (["v"] : Row) ≠ [] := by
    apply List.ne_nil_of_length_pos
    rw [List.length_replicate]
    omega
  have hchunk : chunkList batch_size (List.replicate 1001 (["v"] : Row)) =
      [List.replicate 1000 ["v"], [["v"]]] := by
    rw [chunkList_cons batch_size (by decide) _ hne, htake, hdrop]
    rw [show chunkList batch_size [(["v"] : Row)] = [[["v"]]] from by decide]
  have hcb : commitBatches c2ErrorInput.failAt
      [List.replicate 1000 (["v"] : Row), [["v"]]] =
      ⟨[List.replicate 1000 ["v"], [["v"]]], [List.replicate 1000 ["v"]],
        1000, some "boom"⟩ := by
    rw [commitBatches_fail [List.replicate 1000 (["v"] : Row), [["v"]]]
      c2ErrorInput.failAt 1 "boom" (by decide) rfl
      (fun j hj => by
        have hj0 : j = 0 := by omega
        subst hj0
        rfl)]
    have ht2 : ([List.replicate 1000 (["v"] : Row), [["v"]]]).take 2 =
        [List.replicate 1000 ["v"], [["v"]]] := rfl
    have ht1 : ([List.replicate 1000 (["v"] : Row), [["v"]]]).take 1 =
        [List.replicate 1000 ["v"]] := rfl
    rw [ht2, ht1, List.map_cons, List.map_nil, List.length_replicate,
      List.sum_cons, List.sum_nil]
    rfl
  have hloop : transferLoop batch_size c2ErrorInput.failAt c2ErrorInput.rows =
      ⟨[], [List.replicate 1000 ["v"], [["v"]]], [List.replicate 1000 ["v"]],
        1000, some "boom"⟩ := by
    rw [transferLoop_eq batch_size (by decide),
      show c2ErrorInput.rows = List.replicate 1001 (["v"] : Row) from rfl,
      hchunk, hcb]
    rfl
  have hmig : migrate_table c2ErrorInput =
      ⟨"tokens", TableStatus.error, none, 1000, some "boom", none⟩ := by
    rw [migrate_table_transfer c2ErrorInput (by decide) (by decide) (Or.inl rfl),
      transferPhase_error c2ErrorInput _ "boom" (by rw [hloop]),
      hloop]
    rfl
  refine ⟨hmig, ?_⟩
  show (buildLog "2026-01-01T00:00:00"
    [migrate_table c2ErrorInput]).total_rows_migrated = 0
  rw [hmig]
  decide

/-- C2 amended: the persisted artifact carries the run timestamp, the two
schema identifiers, and the ordered per-table result list as claimed, but
its total row count sums `rows_migrated` over the `success` results only —
rows committed before a failure on an `error` table are excluded. -/
theorem c2_amended_report (timestamp : String) (results : List TableResult) :
    (buildLog timestamp results).timestamp = timestamp ∧
    (buildLog timestamp results).source_schema = SOURCE_SCHEMA ∧
    (buildLog timestamp results).target_schema = TARGET_SCHEMA ∧
    (buildLog timestamp results).results = results ∧
    (buildLog timestamp results).total_rows_migrated = successTotal results :=
  ⟨rfl, rfl, rfl, rfl, summarize_total results⟩

/-- C7: a table with a non-empty reconciled column list whose source row
count is zero is skipped with the "source empty" reason, and the result
does not depend on the operator's response (the overwrite decision is never
consulted); a table with a non-empty source and a non-empty target whose
response does not lowercase to "s" is skipped as declined by the user, with
no rows written. -/
theorem c7_empty_source_and_decline (inp inp2 : TableInput)
    (hcc : reconcile inp.mapping inp.source_columns inp.target_columns ≠ [])
    (hsrc : inp.source_count = 0)
    (hcc2 : reconcile inp2.mapping inp2.source_columns inp2.target_columns ≠ [])
    (hsrc2 : inp2.source_count ≠ 0) (htc2 : 0 < inp2.target_count)
    (hresp2 : lowercase inp2.response ≠ "s") :
    migrate_table inp =
      ⟨inp.table, TableStatus.skipped, some "Tabla vacía en origen", 0, none, none⟩ ∧
    (∀ response, migrate_table (withResponse inp response) = migrate_table inp) ∧
    migrate_table inp2 =
      ⟨inp2.table, TableStatus.skipped, some "Usuario canceló", 0, none, none⟩ := by
  refine ⟨migrate_table_sourceEmpty inp hcc hsrc, ?_,
    migrate_table_declined inp2 hcc2 hsrc2 htc2 hresp2⟩
  intro response
  rw [migrate_table_sourceEmpty (withResponse inp response) hcc hsrc,
    migrate_table_sourceEmpty inp hcc hsrc]
  rfl

/-- Witness for C7 at concrete inputs covering both skip shapes. -/
theorem c7_empty_source_and_decline_witness :
    migrate_table c7EmptySourceInput =
      ⟨"dex_state", TableStatus.skipped, some "Tabla vacía en origen", 0, none, none⟩ ∧
    migrate_table (withResponse c7EmptySourceInput "s") =
      migrate_table c7EmptySourceInput ∧
    migrate_table c7DeclineInput =
      ⟨"audit_log", TableStatus.skipped, some "Usuario canceló", 0, none, none⟩ := by
  have h := c7_empty_source_and_decline c7EmptySourceInput c7DeclineInput
    (by decide) rfl (by decide) (by decide) (by decide) (by decide)
  exact ⟨h.1, h.2.1 "s", h.2.2⟩

/-- C9: a table whose reconciled column list is empty is skipped with the
no-common-columns reason, is never reported as `success`, migrates zero
rows, and its result does not depend on the row counts, the operator
response, the row stream, or the batch write outcomes — the guard fires
before any row-count query, prompt, or write. -/
theorem c9_empty_reconciliation (inp : TableInput)
    (h : reconcile inp.mapping inp.source_columns inp.target_columns = []) :
    migrate_table inp =
      ⟨inp.table, TableStatus.skipped, some "No hay columnas comunes", 0, none, none⟩ ∧
    (migrate_table inp).status ≠ TableStatus.success ∧
    (migrate_table inp).rows_migrated = 0 ∧
    (∀ source_count target_count response rows failAt,
      migrate_table (withRunData inp source_count target_count response rows failAt)
        = migrate_table inp) := by
  have h1 := migrate_table_noCommon inp h
  refine ⟨h1, by rw [h1]; simp, by rw [h1], ?_⟩
  intro source_count target_count response rows failAt
  rw [migrate_table_noCommon (withRunData inp source_count target_count response
    rows failAt) h, h1]
  rfl

/-- C4: for a non-empty row stream migrated with no write failure at the
fixed batch size B = 1000, the loop commits exactly the consecutive B-row
chunks of the stream, in order: no error is recorded, exactly
`ceil(N / B) = (N + B - 1) / B` batches are committed, the committed batch
sizes sum to N (and their concatenation in commit order is exactly the
source stream), the i-th committed batch is rows `[i*B, i*B + B)` of the
stream so every batch before the last holds exactly B rows and the last
holds the remainder, and `rows_migrated` ends at N. -/
theorem c4_batching (rows : List Row) (_hne : rows ≠ []) :
    (transferLoop batch_size (fun _ => none) rows).errorMsg = none ∧
    (transferLoop batch_size (fun _ => none) rows).committed =
      chunkList batch_size rows ∧
    (chunkList batch_size rows).length =
      (rows.length + batch_size - 1) / batch_size ∧
    (transferLoop batch_size (fun _ => none) rows).rowsMigrated = rows.length ∧
    (((transferLoop batch_size (fun _ => none) rows).committed.map List.length).sum
      = rows.length) ∧
    (transferLoop batch_size (fun _ => none) rows).committed.flatten = rows ∧
    (∀ i, i < (chunkList batch_size rows).length →
      (chunkList batch_size rows).get? i =
        some ((rows.drop (i * batch_size)).take batch_size)) ∧
    (∀ i, i < (chunkList batch_size rows).length →
      (((chunkList batch_size rows).get? i).getD []).length =
        min batch_size (rows.length - i * batch_size)) ∧
    (∀ c ∈ (transferLoop batch_size (fun _ => none) rows).committed,
      c.length ≤ batch_size ∧ c ≠ []) := by
  have hB : 0 < batch_size := by decide
  have ht := transferLoop_eq batch_size hB (fun _ => none) rows
  have hcb := commitBatches_noFail (chunkList batch_size rows)
    (fun _ => none) (fun j => rfl)
  have hcom : (transferLoop batch_size (fun _ => none) rows).committed =
      chunkList batch_size rows := by
    rw [ht, hcb]
    rfl
  have herr : (transferLoop batch_size (fun _ => none) rows).errorMsg = none := by
    rw [ht, hcb]
    rfl
  have hsum : ((chunkList batch_size rows).map List.length).sum = rows.length := by
    rw [← List.length_flatten, chunkList_flatten batch_size hB]
  have hrows : (transferLoop batch_size (fun _ => none) rows).rowsMigrated =
      rows.length := by
    rw [ht, hcb]
    show 0 + ((chunkList batch_size rows).map List.length).sum = rows.length
    rw [Nat.zero_add, hsum]
  refine ⟨herr, hcom, chunkList_length batch_size hB rows, hrows, ?_, ?_, ?_, ?_, ?_⟩
  · rw [hcom]
    exact hsum
  · rw [hcom]
    exact chunkList_flatten batch_size hB rows
  · exact chunkList_get? batch_size hB rows
  · intro i hi
    rw [chunkList_get? batch_size hB rows i hi, Option.getD_some,
      List.length_take, List.length_drop]
  · intro c hc
    rw [hcom] at hc
    exact chunkList_mem_length batch_size hB rows c hc

/-- Witness for C4 at a concrete three-row stream: one committed batch of
the full remainder. -/
theorem c4_batching_witness :
    (transferLoop batch_size (fun _ => none) [["a"], ["b"], ["c"]]).errorMsg
      = none ∧
    (transferLoop batch_size (fun _ => none) [["a"], ["b"], ["c"]]).rowsMigrated
      = 3 ∧
    (chunkList batch_size [["a"], ["b"], ["c"]]).length = 1 := by
  have h := c4_batching [["a"], ["b"], ["c"]] (by decide)
  refine ⟨h.1, ?_, ?_⟩
  · rw [h.2.2.2.1]
    decide
  · rw [h.2.2.1]
    decide

/-- C3: if the write of batch `k` raises (all earlier batches having
committed), the failing transaction is rolled back — exactly the first `k`
chunks are committed, only batches `0..k` were ever attempted and no later
batch is attempted — the table's result is `error` carrying the failing
write's message and the row count of the `k` committed batches, and the
orchestrator still maps every other table in the configured order: a run
containing this table still processes all tables before and after it. -/
theorem c3_error_handling (inp : TableInput) (k : Nat) (msg : String)
    (hcc : reconcile inp.mapping inp.source_columns inp.target_columns ≠ [])
    (hsrc : inp.source_count ≠ 0)
    (hok : inp.target_count = 0 ∨ lowercase inp.response = "s")
    (hk : k < (chunkList batch_size inp.rows).length)
    (hfk : inp.failAt k = some msg)
    (hprev : ∀ j, j < k → inp.failAt j = none) :
    (transferLoop batch_size inp.failAt inp.rows).committed =
      (chunkList batch_size inp.rows).take k ∧
    (transferLoop batch_size inp.failAt inp.rows).attempted =
      (chunkList batch_size inp.rows).take (k + 1) ∧
    (migrate_table inp).status = TableStatus.error ∧
    (migrate_table inp).errorMsg = some msg ∧
    (migrate_table inp).rows_migrated =
      (((chunkList batch_size inp.rows).take k).map List.length).sum ∧
    (∀ pre post : List TableInput,
      runTables (pre ++ inp :: post) =
        runTables pre ++ migrate_table inp :: runTables post) := by
  have hB : 0 < batch_size := by decide
  have hcb := commitBatches_fail (chunkList batch_size inp.rows) inp.failAt
    k msg hk hfk hprev
  have ht := transferLoop_eq batch_size hB inp.failAt inp.rows
  have hcom : (transferLoop batch_size inp.failAt inp.rows).committed =
      (chunkList batch_size inp.rows).take k := by
    rw [ht, hcb]
    rfl
  have hatt : (transferLoop batch_size inp.failAt inp.rows).attempted =
      (chunkList batch_size inp.rows).take (k + 1) := by
    rw [ht, hcb]
    rfl
  have herr : (transferLoop batch_size inp.failAt inp.rows).errorMsg = some msg := by
    rw [ht, hcb]
    rfl
  have hrows : (transferLoop batch_size inp.failAt inp.rows).rowsMigrated =
      (((chunkList batch_size inp.rows).take k).map List.length).sum := by
    rw [ht, hcb]
    show 0 + (((chunkList batch_size inp.rows).take k).map List.length).sum = _
    rw [Nat.zero_add]
  have hmig := migrate_table_transfer inp hcc hsrc hok
  have hph := transferPhase_error inp
    (reconcile inp.mapping inp.source_columns inp.target_columns) msg herr
  refine ⟨hcom, hatt, ?_, ?_, ?_, ?_⟩
  · rw [hmig, hph]
  · rw [hmig, hph]
  · rw [hmig, hph]
    show (transferLoop batch_size inp.failAt inp.rows).rowsMigrated = _
    exact hrows
  · intro pre post
    simp [runTables]

/-- Witness for C3 at a concrete one-row input whose only batch write
raises: nothing commits, one batch was attempted, the result is `error`
with zero rows, and a two-table run still yields both results. -/
theorem c3_error_handling_witness :
    (transferLoop batch_size c3FailInput.failAt c3FailInput.rows).committed = [] ∧
    (transferLoop batch_size c3FailInput.failAt c3FailInput.rows).attempted
      = [[["v"]]] ∧
    (migrate_table c3FailInput).status = TableStatus.error ∧
    (migrate_table c3FailInput).errorMsg = some "boom" ∧
    (migrate_table c3FailInput).rows_migrated = 0 ∧
    runTables [c3FailInput, c3FailInput] =
      [migrate_table c3FailInput, migrate_table c3FailInput] := by
  have h := c3_error_handling c3FailInput 0 "boom" (by decide) (by decide)
    (Or.inl rfl) (by decide) rfl (fun j hj => absurd hj (by omega))
  refine ⟨?_, ?_, h.2.2.1, h.2.2.2.1, ?_, ?_⟩
  · rw [h.1]
    rfl
  · rw [h.2.1]
    decide
  · rw [h.2.2.2.2.1]
    decide
  · have h6 := h.2.2.2.2.2 [c3FailInput] []
    rw [show ([c3FailInput] ++ c3FailInput :: []) = [c3FailInput, c3FailInput] from rfl]
      at h6
    rw [h6]
    rfl

/-- C10: a `success` result reports as `rows_migrated` the number of rows
read from the source cursor and sent to the target — not the number of rows
the target actually inserted.  Concretely, migrating the two identical rows
of `c10DuplicateInput` succeeds with `rows_migrated = 2`, while the
duplicate-skip insert semantics applied to those rows on an empty target
inserts only one row. -/
theorem c10_count_is_rows_sent (inp : TableInput)
    (hsucc : (migrate_table inp).status = TableStatus.success) :
    (migrate_table inp).rows_migrated = inp.rows.length ∧
    (migrate_table c10DuplicateInput).rows_migrated = 2 ∧
    insertSkipAll (fun a b => a == b) [] c10DuplicateInput.rows = [["v"]] := by
  refine ⟨?_, by decide, by decide⟩
  by_cases hcc : reconcile inp.mapping inp.source_columns inp.target_columns = []
  · rw [migrate_table_noCommon inp hcc] at hsucc
    simp at hsucc
  by_cases hsrc : inp.source_count = 0
  · rw [migrate_table_sourceEmpty inp hcc hsrc] at hsucc
    simp at hsucc
  have hok : inp.target_count = 0 ∨ lowercase inp.response = "s" := by
    by_cases htc : 0 < inp.target_count
    · by_cases hresp : lowercase inp.response = "s"
      · exact Or.inr hresp
      · rw [migrate_table_declined inp hcc hsrc htc hresp] at hsucc
        simp at hsucc
    · exact Or.inl (by omega)
  rw [migrate_table_transfer inp hcc hsrc hok] at hsucc ⊢
  cases herr : (transferLoop batch_size inp.failAt inp.rows).errorMsg with
  | some msg =>
    rw [transferPhase_error inp _ msg herr] at hsucc
    simp at hsucc
  | none =>
    rw [transferPhase_success inp _ herr]
    show (transferLoop batch_size inp.failAt inp.rows).rowsMigrated = inp.rows.length
    have hB : 0 < batch_size := by decide
    have ht := transferLoop_eq batch_size hB inp.failAt inp.rows
    have herr2 : (commitBatches inp.failAt (chunkList batch_size inp.rows)).errorMsg
        = none := by
      rw [ht] at herr
      exact herr
    have hcb := commitBatches_of_errorMsg_none (chunkList batch_size inp.rows)
      inp.failAt herr2
    rw [ht, hcb]
    show 0 + ((chunkList batch_size inp.rows).map List.length).sum = inp.rows.length
    rw [Nat.zero_add, ← List.length_flatten, chunkList_flatten batch_size hB]

/-- Witness for C10 at the concrete duplicate-row input, whose migration
succeeds. -/
theorem c10_count_is_rows_sent_witness :
    (migrate_table c10DuplicateInput).rows_migrated =
      c10DuplicateInput.rows.length ∧
    (migrate_table c10DuplicateInput).rows_migrated = 2 ∧
    insertSkipAll (fun a b => a == b) [] c10DuplicateInput.rows = [["v"]] :=
  c10_count_is_rows_sent c10DuplicateInput (by decide)

/-- Witness for C9 at a concrete input with disjoint column lists. -/
theorem c9_empty_reconciliation_witness :
    migrate_table c9NoCommonInput =
      ⟨"graph_weights", TableStatus.skipped, some "No hay columnas comunes",
        0, none, none⟩ ∧
    (migrate_table c9NoCommonInput).status ≠ TableStatus.success ∧
    (migrate_table c9NoCommonInput).rows_migrated = 0 ∧
    migrate_table (withRunData c9NoCommonInput 7 9 "s" [["z"]] (fun _ => some "x"))
      = migrate_table c9NoCommonInput := by
  have h := c9_empty_reconciliation c9NoCommonInput (by decide)
  exact ⟨h.1, h.2.1, h.2.2.1, h.2.2.2 7 9 "s" [["z"]] (fun _ => some "x")⟩

end MigrateDb
